import Mathlib

/-!
Verification of the schedule-text-generator repository.

The JavaScript sources are embedded shallowly:
* calendar dates are either day numbers (`Int`, day 0 = 1970-01-01, the value
  underlying a JS `Date`) or civil triples `CalDate` (year, month, day);
* machine numbers are `Nat`/`Int` (the scripts only use small integers);
* fallible code returns `Option`;
* `console.warn` output is modelled by returning the list of warning lines
  next to the result.
-/

namespace ScheduleTextGen

/-! ## Date/Week model (`js/scheduler.js`)

A JS `Date` holding a calendar day is modelled by its day number (days since
1970-01-01, which was a Thursday, hence weekday `(n + 4) % 7` with 0 = Sunday).
`getMonday` in the source computes `d.getDate() - day + (day === 0 ? -6 : 1)`
and feeds it through `setDate`, whose net effect on the underlying day number
is adding `- day + (day === 0 ? -6 : 1)` days (`setDate` normalises values
outside the current month). -/

/-- Weekday of a day number, 0 = Sunday .. 6 = Saturday (JS `Date.getDay`). -/
def jsDayOfWeek (n : Int) : Int := (n + 4) % 7

/-- `Scheduler.getMonday` (scheduler.js:21-26) on the day-number model. -/
def getMonday (n : Int) : Int :=
  n - jsDayOfWeek n + (if jsDayOfWeek n = 0 then -6 else 1)

/-- `Scheduler.getWeekDates` (scheduler.js:29-40): monday + i for i = 0..6. -/
def getWeekDates (n : Int) : List Int :=
  (List.range 7).map fun i => getMonday n + i

/-! ## Time slots (`js/scheduler.js`) -/

/-- The `timeRange` configuration object of `Scheduler`. -/
structure TimeRange where
  startHour : Nat
  endHour : Nat
  minuteInterval : Nat
deriving DecidableEq, Repr

/-- Default configuration from the `Scheduler` constructor (scheduler.js:5-9). -/
def defaultTimeRange : TimeRange := ⟨9, 18, 15⟩

def digitChar (n : Nat) : Char := Char.ofNat (48 + n)

/-- Decimal digits of `n`, most significant first; `fuel`-driven so that the
kernel can evaluate it (`fuel ≥ n` suffices). -/
def natToCharsAux : Nat → Nat → List Char
  | 0, _ => []
  | _ + 1, 0 => []
  | fuel + 1, n => natToCharsAux fuel (n / 10) ++ [digitChar (n % 10)]

/-- Decimal string of a `Nat` as a character list (JS `String(n)`). -/
def natToChars (n : Nat) : List Char :=
  if n = 0 then ['0'] else natToCharsAux (n + 1) n

/-- JS `String.padStart(w, '0')`. -/
def padZero (w : Nat) (l : List Char) : List Char :=
  List.replicate (w - l.length) '0' ++ l

/-- One grid slot, as built in `Scheduler.generateTimeSlots` (scheduler.js:51-56). -/
structure TimeSlot where
  hour : Nat
  minute : Nat
  timeString : String
  isHourMark : Bool
deriving DecidableEq, Repr

/-- The minute values visited by the inner loop
`for (minute = 0; minute < 60; minute += interval)`; the iteration count is
`⌈60 / interval⌉` (the source only ever runs with interval 15). -/
def minuteSteps (interval : Nat) : List Nat :=
  (List.range ((60 + interval - 1) / interval)).map fun k => k * interval

/-- Slots emitted for one `hour` iteration; the `break` on
`hour === endHour && minute > 0` is a `takeWhile`. -/
def slotsForHour (tr : TimeRange) (hour : Nat) : List TimeSlot :=
  ((minuteSteps tr.minuteInterval).takeWhile
      fun m => decide ¬(hour = tr.endHour ∧ 0 < m)).map fun m =>
    { hour := hour
      minute := m
      timeString := String.mk (natToChars hour ++ ':' :: padZero 2 (natToChars m))
      isHourMark := m == 0 }

/-- `Scheduler.generateTimeSlots` (scheduler.js:43-61): hours
`startHour .. endHour` inclusive, inner minute loop with the end-hour break. -/
def generateTimeSlots (tr : TimeRange) : List TimeSlot :=
  (((List.range (tr.endHour + 1 - tr.startHour)).map
    fun k => k + tr.startHour).map (slotsForHour tr)).flatten

/-- `Scheduler.isValidTime` (scheduler.js:64-69). -/
def isValidTime (tr : TimeRange) (hour minute : Nat) : Bool :=
  decide (tr.startHour ≤ hour) && decide (hour ≤ tr.endHour) &&
  decide (0 ≤ minute) && decide (minute < 60) &&
  decide (minute % tr.minuteInterval = 0)

/-- `Scheduler.minutesToTime` (scheduler.js:77-82): `Math.floor` division and
JS `%` (arguments here are nonnegative). -/
def minutesToTime (totalMinutes : Nat) : Nat × Nat :=
  (totalMinutes / 60, totalMinutes % 60)

/-- `Scheduler.getTimeSlotIndex` (scheduler.js:211-219); `-1` on invalid times,
hence an `Int` result. -/
def getTimeSlotIndex (tr : TimeRange) (hour minute : Nat) : Int :=
  if isValidTime tr hour minute then
    ((hour * 60 + minute : Nat) - tr.startHour * 60 : Int) / tr.minuteInterval
  else
    -1

/-- `Scheduler.getTimeSlotFromIndex` (scheduler.js:222-225); the source only
feeds it indices from `getTimeSlotIndex`, which are nonnegative. -/
def getTimeSlotFromIndex (tr : TimeRange) (index : Int) : Nat × Nat :=
  minutesToTime (tr.startHour * 60 + index.toNat * tr.minuteInterval)

/-! ## Candidate model and merge engine (`main.js` / `textGenerator.js`)

A candidate stores a calendar date plus `startHour/startMinute/endHour/endMinute`
(see `ScheduleApp.addCandidate`).  The calendar date is modelled by its day
number; the source compares dates through `getDateKey` (`YYYY-MM-DD` string),
an injective encoding of the calendar day, so date-key equality is day-number
equality here. -/

structure Candidate where
  date : Int
  startHour : Nat
  startMinute : Nat
  endHour : Nat
  endMinute : Nat
deriving DecidableEq, Repr

/-- `candidate.startHour * 60 + candidate.startMinute`, as computed throughout
the sources. -/
def startMin (c : Candidate) : Nat := c.startHour * 60 + c.startMinute

/-- `candidate.endHour * 60 + candidate.endMinute`. -/
def endMin (c : Candidate) : Nat := c.endHour * 60 + c.endMinute

/-- Build a candidate from a date and a minute range, splitting minutes into
hour/minute fields with `Math.floor(t / 60)` / `t % 60` as the sources do. -/
def Candidate.ofRange (date : Int) (lo hi : Nat) : Candidate :=
  ⟨date, lo / 60, lo % 60, hi / 60, hi % 60⟩

/-- `ScheduleApp.addCandidate` (main.js:369-408), restricted to its pure part:
from the two drag endpoints (same-day minutes-of-day `startTime`, `endTime`)
and the selected date, build the candidate.  The source always adds a literal
`15` minutes to the upper bound (`maxTime = maxTime + 15`, and
`maxTime = minTime + 15` when the endpoints coincide); it never reads
`scheduler.timeRange.minuteInterval`, which is passed here only to expose the
configuration the method runs under. -/
def addCandidate (_tr : TimeRange) (date : Int) (startTime endTime : Nat) :
    Candidate :=
  let minTime := min startTime endTime
  let maxTime := max startTime endTime
  let maxTime := if startTime = endTime then minTime + 15 else maxTime + 15
  Candidate.ofRange date minTime maxTime

/-- `TextGenerator.checkTimeConflicts` pair test (textGenerator.js:202-209):
same date key and `aStart < bEnd && aEnd > bStart`. -/
def conflictsWith (a b : Candidate) : Bool :=
  a.date == b.date && decide (startMin a < endMin b) && decide (endMin a > startMin b)

/-- `TextGenerator.checkTimeConflicts` (textGenerator.js:193-221): the double
loop `i < j` flags each ordered-by-index pair passing `conflictsWith`. -/
def checkTimeConflicts : List Candidate → List (Candidate × Candidate)
  | [] => []
  | a :: rest =>
    (rest.filter (conflictsWith a)).map (fun b => (a, b)) ++ checkTimeConflicts rest

/-- Ordering used by `TextGenerator.sortCandidates` (textGenerator.js:99-110):
date ascending, then start-of-day minutes ascending. -/
def candLE (a b : Candidate) : Prop :=
  a.date < b.date ∨ (a.date = b.date ∧ startMin a ≤ startMin b)

instance : DecidableRel candLE := fun a b =>
  inferInstanceAs (Decidable (a.date < b.date ∨ (a.date = b.date ∧ startMin a ≤ startMin b)))

instance : IsTotal Candidate candLE :=
  ⟨fun a b => by
    unfold candLE
    rcases lt_trichotomy a.date b.date with h | h | h
    · exact Or.inl (Or.inl h)
    · rcases Nat.le_total (startMin a) (startMin b) with h' | h'
      · exact Or.inl (Or.inr ⟨h, h'⟩)
      · exact Or.inr (Or.inr ⟨h.symm, h'⟩)
    · exact Or.inr (Or.inl h)⟩

instance : IsTrans Candidate candLE :=
  ⟨fun a b c hab hbc => by
    unfold candLE at *
    rcases hab with h | ⟨h, h'⟩ <;> rcases hbc with g | ⟨g, g'⟩
    · exact Or.inl (h.trans g)
    · exact Or.inl (g ▸ h)
    · exact Or.inl (h ▸ g)
    · exact Or.inr ⟨h.trans g, h'.trans g'⟩⟩

/-- `TextGenerator.sortCandidates` modelled as an insertion sort by `candLE`
(a stable comparison sort, like the JS `Array.prototype.sort` call). -/
def sortCandidates (l : List Candidate) : List Candidate :=
  l.insertionSort candLE

/-- Modelled from the spec: the merging pass of `mergeContinuousCandidates`.
The function itself is absent from the sources (main.js:459 and main.js:550
only call `this.textGenerator.mergeContinuousCandidates`); spec §4.3 says it
groups candidates by calendar date, sorts each date's group by start time, and
merges the next candidate into the previous one exactly when its start time is
≤ the previous end time, the merged range being `[min(starts), max(ends)]`.
This pass walks a (date, start)-sorted list, so each date's group is
contiguous, and folds a current candidate into the next list element whenever
they share a date and touch or overlap. -/
def mergePass : Candidate → List Candidate → List Candidate
  | cur, [] => [cur]
  | cur, c :: rest =>
    if cur.date = c.date ∧ startMin c ≤ endMin cur then
      mergePass
        (Candidate.ofRange cur.date (min (startMin cur) (startMin c))
          (max (endMin cur) (endMin c))) rest
    else
      cur :: mergePass c rest

/-- Modelled from the spec: `mergeContinuousCandidates` (absent from the
sources, see `mergePass`): sort by date then start time, then merge touching
or overlapping same-date candidates. -/
def mergeContinuousCandidates (l : List Candidate) : List Candidate :=
  match sortCandidates l with
  | [] => []
  | c :: rest => mergePass c rest

/-- Invariant of merged output: ordered, and consecutive candidates are on
different dates or separated by a strictly positive gap. -/
def candGap (a b : Candidate) : Prop :=
  candLE a b ∧ (a.date ≠ b.date ∨ endMin a < startMin b)

/-! ## Holiday service (`js/holidayService.js`)

Dates handed to the service are calendar days, modelled as civil triples.
The weekday (`Date.getDay`) is obtained from the standard days-from-civil
conversion (day 0 = 1970-01-01, a Thursday). -/

structure CalDate where
  year : Int
  month : Int
  day : Int
deriving DecidableEq, Repr

/-- Day number of a civil date (days since 1970-01-01), the standard
Gregorian-calendar conversion underlying a JS `Date`. -/
def daysFromCivil (y m d : Int) : Int :=
  let y' := if m ≤ 2 then y - 1 else y
  let era := (if 0 ≤ y' then y' else y' - 399) / 400
  let yoe := y' - era * 400
  let doy := (153 * (if 2 < m then m - 3 else m + 9) + 2) / 5 + d - 1
  let doe := yoe * 365 + yoe / 4 - yoe / 100 + doy
  era * 146097 + doe - 719468

/-- `Date.getDay` for a civil date: 0 = Sunday .. 6 = Saturday. -/
def jsGetDay (d : CalDate) : Int :=
  (daysFromCivil d.year d.month d.day + 4) % 7

/-- `date.toISOString().split('T')[0]` for a calendar day: `YYYY-MM-DD` with
zero padding.  Modelled at UTC offset 0 (the refresh runs in CI); we restrict
attention to CE years, the domain of the holiday data. -/
def isoFormat (y m d : Int) : String :=
  String.mk (padZero 4 (natToChars y.toNat) ++ '-' ::
    (padZero 2 (natToChars m.toNat) ++ '-' :: padZero 2 (natToChars d.toNat)))

/-- One entry of the holiday cache: `{date, name}` (holidayService.js and the
fetch script). -/
structure HolidayEntry where
  date : String
  name : String
deriving DecidableEq, Repr

/-- The loaded JSON cache: `holidays` maps a year to its entry list.  The JS
object is keyed by the year's decimal string, an injective encoding of the
year, so an association list over `Int` keys models it. -/
structure HolidayData where
  holidays : List (Int × List HolidayEntry)
deriving DecidableEq, Repr

/-- `data.holidays[year]` lookup. -/
def lookupYear (data : HolidayData) (y : Int) : Option (List HolidayEntry) :=
  (data.holidays.find? (fun p => p.1 == y)).map Prod.snd

/-- `HolidayService._isHolidayFromJSON` (holidayService.js:129-138). -/
def isHolidayFromJSON (data : HolidayData) (d : CalDate) : Bool :=
  let isoDate := isoFormat d.year d.month d.day
  match lookupYear data d.year with
  | none => false
  | some entries => entries.any fun h => h.date == isoDate

/-- The fallback data built by `_initializeFallbackHolidays`
(holidayService.js:80-100).  The source stores month-day keys as strings
`"1-1"`, `"2-11"`, ...; the `` `${month}-${day}` `` encoding is injective on
(month, day), so the pairs model the keys. -/
structure FallbackData where
  fixedHolidays : List (Int × Int)
deriving DecidableEq, Repr

/-- The hard-coded fixed-holiday list of `_initializeFallbackHolidays`. -/
def initializeFallbackHolidays : FallbackData :=
  ⟨[(1, 1), (2, 11), (4, 29), (5, 3), (5, 4), (5, 5),
    (8, 11), (11, 3), (11, 23), (12, 23)]⟩

/-- `HolidayService._getNthWeekdayOfMonth` (holidayService.js:188-194), as the
day-of-month of the produced date: `1 + (weekday - firstWeekday + 7) % 7 +
(n-1)*7`.  The JS constructor would normalise an overflowing day-of-month into
the next month, but every caller passes `n ≤ 3`, for which the value is at
most 22 and no normalisation happens; callers then read `.getDate()`, i.e.
exactly this value. -/
def getNthWeekdayOfMonthDay (year month weekday n : Int) : Int :=
  let firstWeekday := jsGetDay ⟨year, month, 1⟩
  1 + (weekday - firstWeekday + 7) % 7 + (n - 1) * 7

/-- `HolidayService._isHolidayFromFallback` (holidayService.js:143-183).
The January rule follows the source: first Monday via
`_getNthWeekdayOfMonth(year, 1, 1, 1)`, then `+ 7` days via `setDate` (the
day-of-month stays ≤ 14, so `getDate` returns exactly `firstMonday + 7`). -/
def isHolidayFromFallback (fb : FallbackData) (d : CalDate) : Bool :=
  let dateKey := (d.month, d.day)
  if dateKey ∈ fb.fixedHolidays then true
  else if d.month = 1 ∧ jsGetDay d = 1 ∧
      d.day = getNthWeekdayOfMonthDay d.year 1 1 1 + 7 then true
  else if d.month = 7 ∧ jsGetDay d = 1 ∧
      d.day = getNthWeekdayOfMonthDay d.year 7 1 3 then true
  else if d.month = 9 ∧ jsGetDay d = 1 ∧
      d.day = getNthWeekdayOfMonthDay d.year 9 1 3 then true
  else if d.month = 10 ∧ jsGetDay d = 1 ∧
      d.day = getNthWeekdayOfMonthDay d.year 10 1 2 then true
  else false

/-- The mutable fields of the `HolidayService` singleton that `isHoliday`
reads (holidayService.js:6-11). -/
structure HolidayService where
  holidayData : Option HolidayData
  fallbackHolidays : Option FallbackData
  isInitialized : Bool
deriving DecidableEq, Repr

/-- The `console.warn` line of `HolidayService.isHoliday`. -/
def warnServiceNotInitialized : String :=
  "HolidayService が初期化されていません"

/-- `HolidayService.isHoliday` (holidayService.js:107-124).  The result is the
returned boolean paired with the warning lines written to the console; the
method is a total function of the service state (it never throws). -/
def HolidayService.isHoliday (svc : HolidayService) (d : CalDate) :
    Bool × List String :=
  if svc.isInitialized = false then
    (false, [warnServiceNotInitialized])
  else
    match svc.holidayData with
    | some data => (isHolidayFromJSON data d, [])
    | none =>
      match svc.fallbackHolidays with
      | some fb => (isHolidayFromFallback fb d, [])
      | none => (false, [])

/-- `Scheduler._fallbackHolidayCheck` (scheduler.js:142-158): the six basic
month-day pairs, string keys decoded as pairs as above. -/
def fallbackHolidayCheck (d : CalDate) : Bool :=
  (d.month, d.day) ∈ [((1 : Int), (1 : Int)), (5, 3), (5, 4), (5, 5), (11, 3), (11, 23)]

/-- The `console.warn` line of `Scheduler.isHoliday`. -/
def warnSchedulerNotInitialized : String :=
  "HolidayService が未初期化、基本祝日のみで判定"

/-- `Scheduler.isHoliday` (scheduler.js:130-139): delegate to
`window.holidayService` when it exists and is initialized, otherwise warn and
run the basic fixed-holiday fallback.  `window.holidayService` is the optional
global singleton. -/
def schedulerIsHoliday (svc : Option HolidayService) (d : CalDate) :
    Bool × List String :=
  match svc with
  | some s =>
    if s.isInitialized then s.isHoliday d
    else (fallbackHolidayCheck d, [warnSchedulerNotInitialized])
  | none => (fallbackHolidayCheck d, [warnSchedulerNotInitialized])

/-! ## Holiday refresh script (`fetch-holidays.js`, `HolidayFetcher.parseCSV`)

The CSV text is processed character-wise: JS `split` on the one-character
separators `'\n'`, `','`, `'/'`, and JS `trim` / `parseInt`, are modelled on
`List Char` so every step evaluates by kernel reduction. -/

/-- Whitespace recognised by the model of JS `trim` / `parseInt` (the CSV text
only ever contains these whitespace characters). -/
def isWsChar (c : Char) : Bool :=
  c == ' ' || c == '\t' || c == '\n' || c == '\r'

/-- JS `String.prototype.split` with a one-character separator. -/
def splitOnChar (sep : Char) : List Char → List (List Char)
  | [] => [[]]
  | c :: rest =>
    match splitOnChar sep rest with
    | [] => [[c]]
    | g :: gs => if c = sep then [] :: g :: gs else (c :: g) :: gs

/-- JS `String.prototype.trim` on a character list. -/
def trimList (l : List Char) : List Char :=
  ((l.dropWhile isWsChar).reverse.dropWhile isWsChar).reverse

/-- Numeric value of a digit run. -/
def digitsVal (l : List Char) : Nat :=
  l.foldl (fun a c => a * 10 + (c.toNat - 48)) 0

/-- The digit-prefix part of JS `parseInt` (radix 10): `none` models `NaN`. -/
def parseDigits (l : List Char) : Option Nat :=
  match l.takeWhile Char.isDigit with
  | [] => none
  | ds => some (digitsVal ds)

/-- JS `parseInt(s)` (radix 10): skip leading whitespace, optional sign, then
a digit prefix; `none` models `NaN`. -/
def parseIntJS (l : List Char) : Option Int :=
  match l.dropWhile isWsChar with
  | '-' :: rest => (parseDigits rest).map fun n => -(n : Int)
  | '+' :: rest => (parseDigits rest).map fun n => (n : Int)
  | rest => (parseDigits rest).map fun n => (n : Int)

/-- Gregorian leap year. -/
def isLeapYear (y : Int) : Bool :=
  y % 4 == 0 && (y % 100 != 0 || y % 400 == 0)

/-- Days in a month of the Gregorian calendar. -/
def daysInMonth (y m : Int) : Int :=
  if m = 2 then (if isLeapYear y then 29 else 28)
  else if m = 4 ∨ m = 6 ∨ m = 9 ∨ m = 11 then 30
  else 31

/-- The `new Date(year, month - 1, day)` round-trip validity check of
`parseCSV` (fetch-holidays.js:82-88): the getters return the inputs exactly
when no normalisation happened, i.e. the triple is a genuine calendar date.
Years 0..99 are mapped to 1900+year by the JS constructor and therefore never
round-trip; the (astronomically remote) `Date` range limit is not modelled. -/
def validDateJS (y m d : Int) : Bool :=
  (decide (y < 0) || decide (100 ≤ y)) &&
  decide (1 ≤ m) && decide (m ≤ 12) &&
  decide (1 ≤ d) && decide (d ≤ daysInMonth y m)

/-- `nameStr.replace(/"/g, '').trim()` (fetch-holidays.js:92). -/
def cleanName (l : List Char) : String :=
  String.mk (trimList (l.filter fun c => c != '"'))

/-- One iteration of the `parseCSV` row loop (fetch-holidays.js:61-105) on an
already-trimmed nonempty line: split on `','` into `dateStr, nameStr` (a
missing or empty field is falsy and skips the row), split the date on `'/'`
into exactly 3 parts, `parseInt` them (`NaN` anywhere makes one of the later
checks fail, modelled as a skip), drop years before `currentYear`, drop
impossible calendar dates, and emit the year with the `{date, name}` entry. -/
def parseRow (currentYear : Int) (line : List Char) :
    Option (Int × HolidayEntry) :=
  match splitOnChar ',' line with
  | dateStr :: restFields =>
    match restFields.head? with
    | none => none
    | some nameStr =>
      if dateStr = [] ∨ nameStr = [] then none
      else
        match splitOnChar '/' (trimList dateStr) with
        | [p0, p1, p2] =>
          match parseIntJS p0, parseIntJS p1, parseIntJS p2 with
          | some year, some month, some day =>
            if year < currentYear then none
            else if validDateJS year month day then
              some (year, ⟨isoFormat year month day, cleanName nameStr⟩)
            else none
          | _, _, _ => none
        | _ => none
  | [] => none

/-- Append an entry to its year's group, keeping first-occurrence group order
(`holidays[year] = holidays[year] or []; push`).  The JS object enumerates its
integer keys in ascending order instead; the year-to-entries association is
identical. -/
def addEntry (y : Int) (e : HolidayEntry) :
    List (Int × List HolidayEntry) → List (Int × List HolidayEntry)
  | [] => [(y, [e])]
  | (y', es) :: rest =>
    if y' = y then (y', es ++ [e]) :: rest else (y', es) :: addEntry y e rest

/-- Group the parsed `(year, entry)` stream by year, in row order. -/
def groupByYear (l : List (Int × HolidayEntry)) :
    List (Int × List HolidayEntry) :=
  l.foldl (fun acc p => addEntry p.1 p.2 acc) []

/-- Lexicographic ≤ on character lists by code point, the order
`localeCompare` induces on the ASCII ISO date strings. -/
def listCharLEb : List Char → List Char → Bool
  | [], _ => true
  | _ :: _, [] => false
  | c :: cs, d :: ds =>
    if c.toNat < d.toNat then true
    else if d.toNat < c.toNat then false
    else listCharLEb cs ds

/-- Entry ordering of the final per-year sort
(`sort((a, b) => a.date.localeCompare(b.date))`, fetch-holidays.js:108-110):
lexicographic comparison of the ISO date strings. -/
def entryLE (a b : HolidayEntry) : Prop :=
  listCharLEb a.date.toList b.date.toList = true

instance : DecidableRel entryLE := fun a b =>
  inferInstanceAs (Decidable (listCharLEb a.date.toList b.date.toList = true))

/-- `HolidayFetcher.parseCSV` (fetch-holidays.js:52-116) on the list of lines
after the skipped header row: trim each line, skip empty lines and rows that
fail `parseRow`, group by year, and sort each year's entries by date. -/
def parseCSVRows (currentYear : Int) (rows : List (List Char)) :
    List (Int × List HolidayEntry) :=
  let entries := rows.filterMap fun r =>
    let t := trimList r
    if t = [] then none else parseRow currentYear t
  (groupByYear entries).map fun g => (g.1, g.2.insertionSort entryLE)

/-- `HolidayFetcher.parseCSV` on the raw CSV text: split on `'\n'` and skip
the header line (`for (let i = 1; ...)`). -/
def parseCSVText (currentYear : Int) (csvText : String) :
    List (Int × List HolidayEntry) :=
  parseCSVRows currentYear ((splitOnChar '\n' csvText.toList).drop 1)

/-! ## Theorems -/

/-- C4: for every date, `weekContaining` (`getMonday` plus `getWeekDates`)
returns exactly 7 consecutive calendar dates; the first is the Monday on or
before the given date, equal to the date minus `(weekday + 6) % 7` days with
weekday 0 = Sunday; and the given date falls within the returned 7-day
range. -/
theorem claim_C4_weekContaining (n : Int) :
    getWeekDates n =
      [getMonday n, getMonday n + 1, getMonday n + 2, getMonday n + 3,
        getMonday n + 4, getMonday n + 5, getMonday n + 6] ∧
    getMonday n = n - (jsDayOfWeek n + 6) % 7 ∧
    jsDayOfWeek (getMonday n) = 1 ∧
    getMonday n ≤ n ∧ n ≤ getMonday n + 6 := by
  refine ⟨?_, ?_, ?_, ?_, ?_⟩
  · simp [getWeekDates, List.range_succ]
  all_goals
    by_cases h : jsDayOfWeek n = 0 <;>
      simp only [getMonday, jsDayOfWeek, if_pos, if_neg, h, ite_true, ite_false] <;>
      simp only [jsDayOfWeek] at h <;> omega

/-- C5: with configuration `{startHour: 9, endHour: 18, minuteInterval: 15}`,
`generateTimeSlots` returns the ordered slots from 9:00 to 18:00 inclusive
stepping by 15 minutes, with no slot after 18:00, and every slot has
`isHourMark = true` exactly when its minute is 0. -/
theorem claim_C5_timeSlots :
    ((generateTimeSlots defaultTimeRange).map fun s => s.hour * 60 + s.minute) =
      ((List.range 37).map fun i => 540 + 15 * i) ∧
    (∀ s ∈ generateTimeSlots defaultTimeRange, s.hour * 60 + s.minute ≤ 1080) ∧
    (∀ s ∈ generateTimeSlots defaultTimeRange, s.isHourMark = true ↔ s.minute = 0) := by
  decide

/-- C10: under the default configuration `{9, 18, 15}`, for every time the
source's `isValidTime` accepts, `getTimeSlotFromIndex` inverts
`getTimeSlotIndex`; for every time it rejects, `getTimeSlotIndex` is `-1`. -/
theorem claim_C10_slotIndexRoundTrip (hour minute : Nat) :
    (isValidTime defaultTimeRange hour minute = true →
      getTimeSlotFromIndex defaultTimeRange
        (getTimeSlotIndex defaultTimeRange hour minute) = (hour, minute)) ∧
    (isValidTime defaultTimeRange hour minute = false →
      getTimeSlotIndex defaultTimeRange hour minute = -1) := by
  constructor
  · intro h
    have hv : ((9 ≤ hour ∧ hour ≤ 18) ∧ minute < 60) ∧ minute % 15 = 0 := by
      simpa [isValidTime, defaultTimeRange, decide_eq_true_iff] using h
    obtain ⟨⟨⟨h1, h2⟩, h3⟩, h4⟩ := hv
    obtain ⟨k, rfl⟩ : ∃ k, minute = 15 * k := ⟨minute / 15, by omega⟩
    simp only [defaultTimeRange] at h
    simp only [getTimeSlotIndex, h, if_true, getTimeSlotFromIndex, minutesToTime,
      defaultTimeRange, Prod.mk.injEq]
    have hc : (↑(hour * 60 + 15 * k) - ((9 : Nat) : Int) * 60) =
        ((15 * (hour * 4 + k - 36) : Nat) : Int) := by omega
    rw [hc]
    have hd : ((15 * (hour * 4 + k - 36) : Nat) : Int) / ((15 : Nat) : Int) =
        ((hour * 4 + k - 36 : Nat) : Int) := by
      push_cast
      rw [Int.mul_ediv_cancel_left _ (by norm_num)]
    rw [hd, Int.toNat_natCast]
    constructor <;> omega
  · intro h
    simp [getTimeSlotIndex, h]

/-- C10 witness: the round trip at 10:30 and the rejection at minute 70. -/
theorem claim_C10_witness :
    getTimeSlotFromIndex defaultTimeRange
      (getTimeSlotIndex defaultTimeRange 10 30) = (10, 30) ∧
    getTimeSlotIndex defaultTimeRange 10 70 = -1 :=
  ⟨(claim_C10_slotIndexRoundTrip 10 30).1 (by decide),
   (claim_C10_slotIndexRoundTrip 10 70).2 (by decide)⟩

/-- C6 counterexample: with `minuteInterval = 30`, dragging over 9:00-10:00
(endpoint minutes 540 and 600) produces end time 10:15 = 615 minutes
(`maxTime + 15`, the literal in the source), not `max + 30` as the claim's
"one configured interval step for every value of minuteInterval" requires. -/
theorem claim_C6_counterexample :
    endMin (addCandidate ⟨9, 18, 30⟩ 0 540 600) = 615 ∧
    endMin (addCandidate ⟨9, 18, 30⟩ 0 540 600) ≠ max 540 600 + 30 := by
  decide

/-- C6 (amended): for every drag selection with endpoints at minutes-of-day
`s` and `e`, the candidate has start time `min s e` and end time
`max s e + 15` - a hardcoded 15-minute extension, which equals one configured
interval step only when `minuteInterval = 15`. -/
theorem claim_C6_addCandidate (tr : TimeRange) (date : Int) (s e : Nat) :
    startMin (addCandidate tr date s e) = min s e ∧
    endMin (addCandidate tr date s e) = max s e + 15 := by
  unfold addCandidate startMin endMin Candidate.ofRange
  by_cases h : s = e <;> simp [h] <;> constructor <;> omega

/-- C2 counterexample: with the singleton present but not yet initialized,
`Scheduler.isHoliday` on January 1 returns `true` (its basic fixed-holiday
fallback fires), so "calling isHoliday before initialization returns false for
every date" fails for the `Scheduler.isHoliday` entry point the claim also
covers. -/
theorem claim_C2_counterexample :
    (schedulerIsHoliday (some ⟨none, none, false⟩) ⟨2025, 1, 1⟩).1 = true := by
  decide

/-- C2 (amended): before initialization, `HolidayService.isHoliday` returns
false with a warning and never throws (it is a total function of the state);
`Scheduler.isHoliday` before initialization warns, never throws, and returns
the basic fixed-holiday fallback check instead of a constant false - both when
the singleton is missing and when it is present uninitialized. -/
theorem claim_C2_preInitIsHoliday (svc : HolidayService) (d : CalDate)
    (h : svc.isInitialized = false) :
    svc.isHoliday d = (false, [warnServiceNotInitialized]) ∧
    schedulerIsHoliday (some svc) d =
      (fallbackHolidayCheck d, [warnSchedulerNotInitialized]) ∧
    schedulerIsHoliday none d =
      (fallbackHolidayCheck d, [warnSchedulerNotInitialized]) := by
  refine ⟨?_, ?_, rfl⟩
  · simp [HolidayService.isHoliday, h]
  · simp [schedulerIsHoliday, h]

/-- C2 witness: the amended statement at an uninitialized service and
2025-01-01. -/
theorem claim_C2_witness :
    HolidayService.isHoliday ⟨none, none, false⟩ ⟨2025, 1, 1⟩ =
      (false, [warnServiceNotInitialized]) ∧
    schedulerIsHoliday (some ⟨none, none, false⟩) ⟨2025, 1, 1⟩ =
      (fallbackHolidayCheck ⟨2025, 1, 1⟩, [warnSchedulerNotInitialized]) :=
  ⟨(claim_C2_preInitIsHoliday ⟨none, none, false⟩ ⟨2025, 1, 1⟩ rfl).1,
   (claim_C2_preInitIsHoliday ⟨none, none, false⟩ ⟨2025, 1, 1⟩ rfl).2.1⟩

/-- C3: in primary mode, `isHoliday` returns false when the mapping has no
entry for the date's year, and otherwise returns true iff the date's ISO
calendar-date string appears in that year's entry list. -/
theorem claim_C3_isHolidayFromJSON (data : HolidayData) (d : CalDate) :
    (lookupYear data d.year = none → isHolidayFromJSON data d = false) ∧
    (∀ entries, lookupYear data d.year = some entries →
      (isHolidayFromJSON data d = true ↔
        isoFormat d.year d.month d.day ∈ entries.map HolidayEntry.date)) := by
  constructor
  · intro h
    simp [isHolidayFromJSON, h]
  · intro entries h
    simp only [isHolidayFromJSON, h, List.any_eq_true, beq_iff_eq, List.mem_map]

/-- C3 witness: a mapping with a 2026 entry answers true on 2026-01-01, and a
mapping without the year answers false. -/
theorem claim_C3_witness :
    isHolidayFromJSON ⟨[(2026, [⟨"2026-01-01", "NewYear"⟩])]⟩ ⟨2026, 1, 1⟩ = true ∧
    isHolidayFromJSON ⟨[(2026, [⟨"2026-01-01", "NewYear"⟩])]⟩ ⟨2025, 1, 1⟩ = false :=
  ⟨((claim_C3_isHolidayFromJSON ⟨[(2026, [⟨"2026-01-01", "NewYear"⟩])]⟩
        ⟨2026, 1, 1⟩).2 [⟨"2026-01-01", "NewYear"⟩] (by decide)).mpr (by decide),
   (claim_C3_isHolidayFromJSON ⟨[(2026, [⟨"2026-01-01", "NewYear"⟩])]⟩
        ⟨2025, 1, 1⟩).1 (by decide)⟩

/-- In the source the 2nd Monday of January is computed as the first Monday
plus 7 days; this equals `_getNthWeekdayOfMonth(year, 1, 1, 2)`. -/
theorem nthMonday_jan_bridge (y : Int) :
    getNthWeekdayOfMonthDay y 1 1 1 + 7 = getNthWeekdayOfMonthDay y 1 1 2 := by
  simp only [getNthWeekdayOfMonthDay]
  omega

/-- C7: in fallback mode, `isHoliday` returns true exactly when the month-day
pair is one of the 10 fixed pairs or the date is the computed 2nd Monday of
January, 3rd Monday of July, 3rd Monday of September, or 2nd Monday of
October (weekday Monday and day-of-month equal to the computed nth Monday's);
in particular true on 2025-07-21 and false on 2025-07-14. -/
theorem claim_C7_fallbackHoliday (d : CalDate) :
    (isHolidayFromFallback initializeFallbackHolidays d = true ↔
      ((d.month, d.day) ∈
          [((1 : Int), (1 : Int)), (2, 11), (4, 29), (5, 3), (5, 4), (5, 5),
            (8, 11), (11, 3), (11, 23), (12, 23)] ∨
        (d.month = 1 ∧ jsGetDay d = 1 ∧
          d.day = getNthWeekdayOfMonthDay d.year 1 1 2) ∨
        (d.month = 7 ∧ jsGetDay d = 1 ∧
          d.day = getNthWeekdayOfMonthDay d.year 7 1 3) ∨
        (d.month = 9 ∧ jsGetDay d = 1 ∧
          d.day = getNthWeekdayOfMonthDay d.year 9 1 3) ∨
        (d.month = 10 ∧ jsGetDay d = 1 ∧
          d.day = getNthWeekdayOfMonthDay d.year 10 1 2))) ∧
    isHolidayFromFallback initializeFallbackHolidays ⟨2025, 7, 21⟩ = true ∧
    isHolidayFromFallback initializeFallbackHolidays ⟨2025, 7, 14⟩ = false := by
  refine ⟨?_, by decide, by decide⟩
  have hjan := nthMonday_jan_bridge d.year
  simp only [isHolidayFromFallback, initializeFallbackHolidays, ← hjan]
  split_ifs with h1 h2 h3 h4 h5 <;> simp_all

theorem pair_sublist_cons {α : Type} {x y c : α} {l : List α} :
    [x, y].Sublist (c :: l) ↔ (x = c ∧ y ∈ l) ∨ [x, y].Sublist l := by
  constructor
  · intro h
    cases h with
    | cons _ h' => exact Or.inr h'
    | cons₂ _ h' => exact Or.inl ⟨rfl, List.singleton_sublist.mp h'⟩
  · rintro (⟨rfl, hy⟩ | h)
    · exact List.Sublist.cons₂ _ (List.singleton_sublist.mpr hy)
    · exact List.Sublist.cons _ h

theorem conflictsWith_iff {a b : Candidate} :
    conflictsWith a b = true ↔
      a.date = b.date ∧ startMin a < endMin b ∧ endMin a > startMin b := by
  simp [conflictsWith, and_assoc]

/-- C8: `detectConflicts` flags a pair occurring in list order exactly when
the two candidates share a calendar date and their ranges strictly overlap
(`startA < endB` and `endA > startB`); touching ranges are not flagged.  In
particular 09:00-10:00 and 09:30-10:30 on one date give exactly one conflict
and 09:00-10:00 with 10:00-11:00 give none. -/
theorem claim_C8_detectConflicts :
    (∀ (cs : List Candidate) (x y : Candidate),
      (x, y) ∈ checkTimeConflicts cs ↔
        ([x, y].Sublist cs ∧ x.date = y.date ∧
          startMin x < endMin y ∧ endMin x > startMin y)) ∧
    checkTimeConflicts [Candidate.ofRange 5 540 600, Candidate.ofRange 5 570 630] =
      [(Candidate.ofRange 5 540 600, Candidate.ofRange 5 570 630)] ∧
    checkTimeConflicts [Candidate.ofRange 5 540 600, Candidate.ofRange 5 600 660] =
      [] := by
  refine ⟨?_, by decide, by decide⟩
  intro cs
  induction cs with
  | nil =>
    intro x y
    simp [checkTimeConflicts]
  | cons c rest ih =>
    intro x y
    simp only [checkTimeConflicts, List.mem_append, List.mem_map, List.mem_filter,
      Prod.mk.injEq, pair_sublist_cons, ih]
    constructor
    · rintro (⟨b, ⟨hb, hcf⟩, rfl, rfl⟩ | ⟨hsub, hrest⟩)
      · exact ⟨Or.inl ⟨rfl, hb⟩, conflictsWith_iff.mp hcf⟩
      · exact ⟨Or.inr hsub, hrest⟩
    · rintro ⟨(⟨rfl, hy⟩ | hsub), hcond⟩
      · exact Or.inl ⟨y, ⟨hy, conflictsWith_iff.mpr hcond⟩, rfl, rfl⟩
      · exact Or.inr ⟨hsub, hcond⟩

theorem startMin_ofRange (d : Int) (lo hi : Nat) :
    startMin (Candidate.ofRange d lo hi) = lo := by
  simp only [startMin, Candidate.ofRange]
  omega

theorem endMin_ofRange (d : Int) (lo hi : Nat) :
    endMin (Candidate.ofRange d lo hi) = hi := by
  simp only [endMin, Candidate.ofRange]
  omega

theorem date_ofRange (d : Int) (lo hi : Nat) :
    (Candidate.ofRange d lo hi).date = d := rfl

/-- The merging pass of a `candLE`-chain yields a `candGap`-chain whose head
keeps the date and start of the accumulator and only grows its end. -/
theorem mergePass_spec (rest : List Candidate) :
    ∀ cur : Candidate, List.Chain' candLE (cur :: rest) →
      (∃ hd tl, mergePass cur rest = hd :: tl ∧ hd.date = cur.date ∧
        startMin hd = startMin cur ∧ endMin cur ≤ endMin hd) ∧
      List.Chain' candGap (mergePass cur rest) := by
  induction rest with
  | nil =>
    intro cur _
    exact ⟨⟨cur, [], rfl, rfl, rfl, le_refl _⟩, List.chain'_singleton cur⟩
  | cons c rest ih =>
    intro cur hch
    rw [List.chain'_cons] at hch
    obtain ⟨hlc, hch'⟩ := hch
    by_cases hm : cur.date = c.date ∧ startMin c ≤ endMin cur
    · have hss : startMin cur ≤ startMin c := by
        rcases hlc with h | ⟨_, h⟩
        · exact absurd hm.1 (ne_of_lt h)
        · exact h
      have hstep : mergePass cur (c :: rest) =
          mergePass (Candidate.ofRange cur.date (min (startMin cur) (startMin c))
            (max (endMin cur) (endMin c))) rest := by
        simp only [mergePass]
        rw [if_pos hm]
      have hch'' : List.Chain'
          candLE (Candidate.ofRange cur.date (min (startMin cur) (startMin c))
            (max (endMin cur) (endMin c)) :: rest) := by
        cases rest with
        | nil => exact List.chain'_singleton _
        | cons d' rest' =>
          rw [List.chain'_cons] at hch' ⊢
          refine ⟨?_, hch'.2⟩
          rcases hch'.1 with h | ⟨h, h'⟩
          · left
            rw [date_ofRange, hm.1]
            exact h
          · right
            refine ⟨by rw [date_ofRange, hm.1]; exact h, ?_⟩
            rw [startMin_ofRange]
            exact le_trans (min_le_right _ _) h'
      obtain ⟨⟨hd, tl, heq, hdd, hds, hde⟩, hgap⟩ := ih _ hch''
      refine ⟨⟨hd, tl, by rw [hstep, heq], ?_, ?_, ?_⟩, by rw [hstep]; exact hgap⟩
      · rw [hdd, date_ofRange]
      · rw [hds, startMin_ofRange]
        exact min_eq_left hss
      · calc endMin cur ≤ max (endMin cur) (endMin c) := le_max_left _ _
          _ = endMin (Candidate.ofRange cur.date (min (startMin cur) (startMin c))
              (max (endMin cur) (endMin c))) := (endMin_ofRange _ _ _).symm
          _ ≤ endMin hd := hde
    · have hstep : mergePass cur (c :: rest) = cur :: mergePass c rest := by
        simp only [mergePass]
        rw [if_neg hm]
      obtain ⟨⟨hd, tl, heq, hdd, hds, hde⟩, hgap⟩ := ih c hch'
      refine ⟨⟨cur, mergePass c rest, hstep, rfl, rfl, le_refl _⟩, ?_⟩
      rw [hstep, heq, List.chain'_cons]
      refine ⟨⟨?_, ?_⟩, heq ▸ hgap⟩
      · rcases hlc with h | ⟨h, h'⟩
        · left
          rw [hdd]
          exact h
        · right
          refine ⟨h.trans hdd.symm, ?_⟩
          rw [hds]
          exact h'
      · push_neg at hm
        by_cases hdate : cur.date = c.date
        · right
          rw [hds]
          exact hm hdate
        · left
          rw [hdd]
          exact hdate

/-- A `candGap`-chain is already fully merged. -/
theorem mergePass_of_gapped (rest : List Candidate) :
    ∀ cur : Candidate, List.Chain' candGap (cur :: rest) →
      mergePass cur rest = cur :: rest := by
  induction rest with
  | nil =>
    intro cur _
    rfl
  | cons c rest ih =>
    intro cur h
    rw [List.chain'_cons] at h
    obtain ⟨⟨_, hgap⟩, h'⟩ := h
    have hm : ¬(cur.date = c.date ∧ startMin c ≤ endMin cur) := by
      rintro ⟨hd, hs⟩
      rcases hgap with hne | hlt
      · exact hne hd
      · omega
    simp only [mergePass]
    rw [if_neg hm, ih c h']

theorem candGap_chain_le {l : List Candidate} (h : List.Chain' candGap l) :
    List.Chain' candLE l :=
  List.Chain'.imp (fun _ _ hg => hg.1) h

theorem mergeCC_eq (l : List Candidate) :
    mergeContinuousCandidates l =
      match sortCandidates l with
      | [] => []
      | c :: rest => mergePass c rest := rfl

/-- C1: the spec-modelled `mergeContiguous` is idempotent; it merges two
same-date candidates into one exactly when the later start is ≤ the earlier
end, the merged range being `[min(starts), max(ends)]`; same-date 09:00-10:00
and 10:00-11:00 merge into 09:00-11:00, while 09:00-10:00 and 10:15-11:00 are
returned unchanged. -/
theorem claim_C1_mergeContiguous :
    (∀ l, mergeContinuousCandidates (mergeContinuousCandidates l) =
      mergeContinuousCandidates l) ∧
    (∀ (d : Int) (s1 e1 s2 e2 : Nat), s1 ≤ s2 →
      mergeContinuousCandidates
          [Candidate.ofRange d s1 e1, Candidate.ofRange d s2 e2] =
        if s2 ≤ e1 then [Candidate.ofRange d (min s1 s2) (max e1 e2)]
        else [Candidate.ofRange d s1 e1, Candidate.ofRange d s2 e2]) ∧
    mergeContinuousCandidates
        [Candidate.ofRange 0 540 600, Candidate.ofRange 0 600 660] =
      [Candidate.ofRange 0 540 660] ∧
    mergeContinuousCandidates
        [Candidate.ofRange 0 540 600, Candidate.ofRange 0 615 660] =
      [Candidate.ofRange 0 540 600, Candidate.ofRange 0 615 660] := by
  refine ⟨?_, ?_, by decide, by decide⟩
  · intro l
    have hs : List.Sorted candLE (sortCandidates l) :=
      List.sorted_insertionSort candLE l
    rcases hsl : sortCandidates l with _ | ⟨c, rest⟩
    · have h0 : mergeContinuousCandidates l = [] := by rw [mergeCC_eq, hsl]
      rw [h0]
      rfl
    · have hchain : List.Chain' candLE (c :: rest) := by
        rw [List.chain'_iff_pairwise]
        exact hsl ▸ hs
      obtain ⟨⟨hd, tl, heq, _, _, _⟩, hgap⟩ := mergePass_spec rest c hchain
      have h1 : mergeContinuousCandidates l = mergePass c rest := by
        rw [mergeCC_eq, hsl]
      have hsorted : sortCandidates (mergePass c rest) = mergePass c rest :=
        List.Sorted.insertionSort_eq
          ((List.chain'_iff_pairwise).mp (candGap_chain_le hgap))
      rw [h1, mergeCC_eq, hsorted, heq]
      exact mergePass_of_gapped tl hd (heq ▸ hgap)
  · intro d s1 e1 s2 e2 h
    have hle : candLE (Candidate.ofRange d s1 e1) (Candidate.ofRange d s2 e2) :=
      Or.inr ⟨rfl, by rw [startMin_ofRange, startMin_ofRange]; exact h⟩
    have hsort : sortCandidates [Candidate.ofRange d s1 e1, Candidate.ofRange d s2 e2] =
        [Candidate.ofRange d s1 e1, Candidate.ofRange d s2 e2] := by
      simp only [sortCandidates, List.insertionSort, List.orderedInsert]
      rw [if_pos hle]
    rw [mergeCC_eq, hsort]
    by_cases hc : s2 ≤ e1
    · rw [if_pos hc]
      show mergePass (Candidate.ofRange d s1 e1) [Candidate.ofRange d s2 e2] = _
      simp only [mergePass]
      rw [if_pos ⟨rfl, by rw [startMin_ofRange, endMin_ofRange]; exact hc⟩]
      simp only [startMin_ofRange, endMin_ofRange, date_ofRange]
    · rw [if_neg hc]
      show mergePass (Candidate.ofRange d s1 e1) [Candidate.ofRange d s2 e2] = _
      simp only [mergePass]
      rw [if_neg ?_]
      rintro ⟨_, hR⟩
      rw [startMin_ofRange, endMin_ofRange] at hR
      exact hc hR

/-- C1 witness: overlapping same-date ranges 09:00-10:00 and 09:30-10:30
merge into `[min, max]` = 09:00-10:30. -/
theorem claim_C1_witness :
    mergeContinuousCandidates
        [Candidate.ofRange 3 540 600, Candidate.ofRange 3 570 630] =
      [Candidate.ofRange 3 (min 540 570) (max 600 630)] := by
  have h := claim_C1_mergeContiguous.2.1 3 540 600 570 630 (by norm_num)
  rw [if_pos (by norm_num : (570 : Nat) ≤ 600)] at h
  exact h

theorem listCharLEb_total : ∀ l1 l2 : List Char,
    listCharLEb l1 l2 = true ∨ listCharLEb l2 l1 = true
  | [], _ => Or.inl rfl
  | _ :: _, [] => Or.inr rfl
  | c :: cs, d :: ds => by
    simp only [listCharLEb]
    rcases Nat.lt_trichotomy c.toNat d.toNat with h | h | h
    · left
      rw [if_pos h]
    · rw [if_neg (by omega), if_neg (by omega), if_neg (by omega), if_neg (by omega)]
      exact listCharLEb_total cs ds
    · right
      rw [if_pos h]

theorem listCharLEb_trans : ∀ l1 l2 l3 : List Char, listCharLEb l1 l2 = true →
    listCharLEb l2 l3 = true → listCharLEb l1 l3 = true
  | [], _, _, _, _ => rfl
  | _ :: _, [], _, h, _ => by simp [listCharLEb] at h
  | _ :: _, _ :: _, [], _, h2 => by simp [listCharLEb] at h2
  | c :: cs, d :: ds, e :: es, h1, h2 => by
    simp only [listCharLEb] at h1 h2 ⊢
    by_cases hcd : c.toNat < d.toNat
    · by_cases hde : d.toNat < e.toNat
      · rw [if_pos (by omega)]
      · rw [if_neg hde] at h2
        by_cases hed : e.toNat < d.toNat
        · rw [if_pos hed] at h2
          exact absurd h2 (by simp)
        · rw [if_pos (by omega)]
    · by_cases hdc : d.toNat < c.toNat
      · rw [if_neg hcd, if_pos hdc] at h1
        exact absurd h1 (by simp)
      · rw [if_neg hcd, if_neg hdc] at h1
        by_cases hde : d.toNat < e.toNat
        · rw [if_pos (by omega)]
        · rw [if_neg hde] at h2
          by_cases hed : e.toNat < d.toNat
          · rw [if_pos hed] at h2
            exact absurd h2 (by simp)
          · rw [if_neg hed] at h2
            rw [if_neg (by omega), if_neg (by omega)]
            exact listCharLEb_trans cs ds es h1 h2

theorem parseRow_some {cy : Int} {line : List Char} {y : Int} {e : HolidayEntry}
    (h : parseRow cy line = some (y, e)) :
    cy ≤ y ∧ ∃ m d, validDateJS y m d = true ∧ e.date = isoFormat y m d := by
  unfold parseRow at h
  repeat' split at h
  all_goals simp_all
  obtain ⟨rfl, rfl⟩ := h
  refine ⟨_, _, ?_, rfl⟩
  assumption

theorem addEntry_invariant (Q : Int → Prop) (R : Int → HolidayEntry → Prop)
    (y : Int) (e : HolidayEntry) (hQ : Q y) (hR : R y e) :
    ∀ acc : List (Int × List HolidayEntry),
      (∀ g ∈ acc, Q g.1 ∧ ∀ x ∈ g.2, R g.1 x) →
      ∀ g ∈ addEntry y e acc, Q g.1 ∧ ∀ x ∈ g.2, R g.1 x := by
  intro acc
  induction acc with
  | nil =>
    intro _ g hg
    simp only [addEntry, List.mem_singleton] at hg
    subst hg
    exact ⟨hQ, by simpa using hR⟩
  | cons p rest ih =>
    intro hacc g hg
    obtain ⟨y', es⟩ := p
    simp only [addEntry] at hg
    by_cases hy : y' = y
    · rw [if_pos hy] at hg
      rcases List.mem_cons.mp hg with rfl | hg'
      · have hp := hacc (y', es) (List.mem_cons_self _ _)
        subst hy
        refine ⟨hp.1, fun x hx => ?_⟩
        rcases List.mem_append.mp hx with hx | hx
        · exact hp.2 x hx
        · rw [List.mem_singleton] at hx
          subst hx
          exact hR
      · exact hacc g (List.mem_cons_of_mem _ hg')
    · rw [if_neg hy] at hg
      rcases List.mem_cons.mp hg with rfl | hg'
      · exact hacc (y', es) (List.mem_cons_self _ _)
      · exact ih (fun g' hmem => hacc g' (List.mem_cons_of_mem _ hmem)) g hg'

theorem foldl_addEntry_invariant (Q : Int → Prop) (R : Int → HolidayEntry → Prop) :
    ∀ (l : List (Int × HolidayEntry)) (acc : List (Int × List HolidayEntry)),
      (∀ p ∈ l, Q p.1 ∧ R p.1 p.2) →
      (∀ g ∈ acc, Q g.1 ∧ ∀ x ∈ g.2, R g.1 x) →
      ∀ g ∈ l.foldl (fun acc p => addEntry p.1 p.2 acc) acc,
        Q g.1 ∧ ∀ x ∈ g.2, R g.1 x := by
  intro l
  induction l with
  | nil =>
    intro acc _ hacc
    simpa using hacc
  | cons p l ih =>
    intro acc hl hacc
    simp only [List.foldl_cons]
    exact ih _ (fun q hq => hl q (List.mem_cons_of_mem _ hq))
      (addEntry_invariant Q R p.1 p.2 (hl p (List.mem_cons_self _ _)).1
        (hl p (List.mem_cons_self _ _)).2 acc hacc)

/-- C9: every group the refresh parser emits has year ≥ the refresh's current
year and contains only entries dated (by a valid calendar date) in that year's
ISO format, each year's list sorted ascending by date string; and any
malformed row (empty after trimming, or rejected by the row parse) is skipped
without affecting the rest of the output. -/
theorem claim_C9_parseCSV :
    (∀ (cy : Int) (text : String) (g : Int × List HolidayEntry),
      g ∈ parseCSVText cy text →
        cy ≤ g.1 ∧
        (∀ e ∈ g.2, ∃ m d, validDateJS g.1 m d = true ∧
          e.date = isoFormat g.1 m d) ∧
        g.2.Sorted entryLE) ∧
    (∀ (cy : Int) (pre post : List (List Char)) (bad : List Char),
      trimList bad = [] ∨ parseRow cy (trimList bad) = none →
      parseCSVRows cy (pre ++ bad :: post) = parseCSVRows cy (pre ++ post)) := by
  haveI : IsTotal HolidayEntry entryLE := ⟨fun a b => listCharLEb_total _ _⟩
  haveI : IsTrans HolidayEntry entryLE := ⟨fun _ _ _ => listCharLEb_trans _ _ _⟩
  constructor
  · intro cy text g hg
    simp only [parseCSVText, parseCSVRows, List.mem_map] at hg
    obtain ⟨g0, hg0, rfl⟩ := hg
    have hl : ∀ p ∈ (((splitOnChar '\n' text.toList).drop 1).filterMap fun r =>
        let t := trimList r
        if t = [] then none else parseRow cy t),
        cy ≤ p.1 ∧ ∃ m d, validDateJS p.1 m d = true ∧
          p.2.date = isoFormat p.1 m d := by
      intro p hp
      obtain ⟨r, _, hf⟩ := List.mem_filterMap.mp hp
      simp only at hf
      obtain ⟨py, pe⟩ := p
      by_cases ht : trimList r = []
      · rw [if_pos ht] at hf
        exact absurd hf (by simp)
      · rw [if_neg ht] at hf
        exact parseRow_some hf
    have hinv := foldl_addEntry_invariant (fun y => cy ≤ y)
      (fun y e => ∃ m d, validDateJS y m d = true ∧ e.date = isoFormat y m d)
      _ [] hl (by simp) g0 hg0
    refine ⟨hinv.1, fun e he => hinv.2 e ?_, List.sorted_insertionSort _ _⟩
    exact (List.mem_insertionSort entryLE).mp he
  · intro cy pre post bad hbad
    have hnone : (if trimList bad = [] then none
        else parseRow cy (trimList bad)) = (none : Option (Int × HolidayEntry)) := by
      rcases hbad with h | h
      · rw [if_pos h]
      · by_cases ht : trimList bad = []
        · rw [if_pos ht]
        · rw [if_neg ht]
          exact h
    simp only [parseCSVRows]
    rw [List.filterMap_append, List.filterMap_append, List.filterMap_cons, hnone]

/-- C9 witness: a CSV with a header, two valid 2026 rows out of date order,
yields the 2026 group (≥ current year) sorted ascending; a malformed row is
skipped without changing the output. -/
theorem claim_C9_witness :
    (2025 : Int) ≤ 2026 ∧
    ([⟨"2026-01-01", "A"⟩, ⟨"2026-01-02", "B"⟩] : List HolidayEntry).Sorted entryLE ∧
    parseCSVRows 2025 [['b', 'a', 'd']] = parseCSVRows 2025 [] := by
  have h1 := claim_C9_parseCSV.1 2025 "date,name\n2026/1/2,B\n2026/1/1,A"
    (2026, [⟨"2026-01-01", "A"⟩, ⟨"2026-01-02", "B"⟩]) (by decide)
  have h2 := claim_C9_parseCSV.2 2025 [] [] ['b', 'a', 'd'] (Or.inr (by decide))
  exact ⟨h1.1, h1.2.2, by simpa using h2⟩

end ScheduleTextGen
